import Mathlib

/-!
Verification of the movies-buddy workshop repository.

The repository's one piece of original algorithmic code is the brute-force
k-nearest-neighbour function `k_closest_vectors` in the vector-database
notebook:

    def k_closest_vectors(target_vec, vectors, k):
        distances = np.sqrt(np.sum((vectors - target_vec) ** 2, axis=1))
        k_closest_indices = np.argsort(distances)[:k]
        closest_vectors = vectors[k_closest_indices]
        return closest_vectors

We embed it over exact rationals: a matrix is a `List (List ℚ)` of rows, a
vector a `List ℚ`.  The NumPy pipeline applies `np.sqrt` to the squared
distances before `np.argsort`; since the square root is strictly monotone on
nonnegative reals the induced ordering of indices is identical to the one
given by the squared distances, so the embedding sorts by the (exact,
executable) squared distance and every theorem about Euclidean distances is
recovered through `Real.sqrt` and its monotonicity (`sqDist_sqrt_le_iff`
below).
-/

namespace MoviesBuddy

/-- Squared Euclidean distance of two vectors: the per-row content of
`np.sum((vectors - target_vec) ** 2, axis=1)` — elementwise subtraction,
elementwise square, row sum. -/
def sqDist (v w : List ℚ) : ℚ :=
  ((List.zipWith (fun a b => a - b) v w).map (fun x => x ^ 2)).sum

theorem sqDist_nonneg (v w : List ℚ) : 0 ≤ sqDist v w := by
  apply List.sum_nonneg
  intro x hx
  rcases List.mem_map.1 hx with ⟨y, _, rfl⟩
  exact sq_nonneg y

/-- The ordering of Euclidean distances `√(sqDist)` coincides with the
ordering of squared distances: this is why sorting by `sqDist` embeds the
source's sort of `np.sqrt` values faithfully. -/
theorem sqDist_sqrt_le_iff (v w v' w' : List ℚ) :
    Real.sqrt ((sqDist v w : ℚ) : ℝ) ≤ Real.sqrt ((sqDist v' w' : ℚ) : ℝ) ↔
      sqDist v w ≤ sqDist v' w' := by
  rw [Real.sqrt_le_sqrt_iff (by exact_mod_cast sqDist_nonneg v' w')]
  exact_mod_cast Iff.rfl

/-- Comparison of indices by their key in the distance array (`getD` with
default 0; all indices used are in range). -/
def keyLe (ds : List ℚ) (i j : ℕ) : Prop :=
  ds.getD i 0 ≤ ds.getD j 0

instance (ds : List ℚ) : DecidableRel (keyLe ds) := fun i j =>
  inferInstanceAs (Decidable (ds.getD i 0 ≤ ds.getD j 0))

instance (ds : List ℚ) : IsTotal ℕ (keyLe ds) :=
  ⟨fun i j => le_total (ds.getD i 0) (ds.getD j 0)⟩

instance (ds : List ℚ) : IsTrans ℕ (keyLe ds) :=
  ⟨fun _ _ _ hij hjk => le_trans hij hjk⟩

/-- `np.argsort`: the list of indices of `ds` ordered by their key.  NumPy's
default sort is unstable, so among equal keys the order is unspecified; the
claims under verification are all tie-agnostic and we model the argsort with
a concrete comparison sort. -/
def argsort (ds : List ℚ) : List ℕ :=
  List.insertionSort (keyLe ds) (List.range ds.length)

/-- The brute-force k-nearest-neighbour scan of the notebook, row for row:
distances to every row, argsort, slice `[:k]`, fancy indexing. -/
def k_closest_vectors (target_vec : List ℚ) (vectors : List (List ℚ)) (k : ℕ) :
    List (List ℚ) :=
  let distances := vectors.map (fun row => sqDist row target_vec)
  let k_closest_indices := (argsort distances).take k
  k_closest_indices.map (fun i => vectors.getD i [])

theorem argsort_perm (ds : List ℚ) : (argsort ds).Perm (List.range ds.length) :=
  List.perm_insertionSort _ _

theorem argsort_sorted (ds : List ℚ) : List.Sorted (keyLe ds) (argsort ds) :=
  List.sorted_insertionSort _ _

theorem argsort_length (ds : List ℚ) : (argsort ds).length = ds.length := by
  simpa using (argsort_perm ds).length_eq

theorem mem_argsort (ds : List ℚ) (i : ℕ) : i ∈ argsort ds ↔ i < ds.length := by
  rw [(argsort_perm ds).mem_iff, List.mem_range]

theorem argsort_nodup (ds : List ℚ) : (argsort ds).Nodup :=
  (argsort_perm ds).nodup_iff.2 (List.nodup_range _)

theorem map_getD_of_lt {α β : Type} (f : α → β) (l : List α) (i : ℕ) (d : α)
    (e : β) (h : i < l.length) : (l.map f).getD i e = f (l.getD i d) := by
  rw [List.getD_eq_getElem l d h,
      List.getD_eq_getElem (l.map f) e (by simpa using h), List.getElem_map]

theorem map_getD_range {α : Type} (l : List α) (d : α) :
    (List.range l.length).map (fun i => l.getD i d) = l := by
  apply List.ext_getElem
  · simp
  · intro i h1 h2
    simp [List.getElem?_eq_getElem h2]

theorem keyLe_sqDist (t : List ℚ) (vs : List (List ℚ)) (i j : ℕ)
    (hi : i < vs.length) (hj : j < vs.length)
    (h : keyLe (vs.map (fun row => sqDist row t)) i j) :
    sqDist (vs.getD i []) t ≤ sqDist (vs.getD j []) t := by
  rwa [keyLe, map_getD_of_lt _ vs i [] 0 hi, map_getD_of_lt _ vs j [] 0 hj] at h

/-- C1: for 0 ≤ k ≤ n (n the number of rows, all of the query's dimension),
`k_closest_vectors` returns exactly k rows of the matrix — the rows at k
distinct in-range indices — and the Euclidean distance of every returned row
to the query is ≤ that of every row not returned. -/
theorem k_closest_vectors_k_smallest (t : List ℚ) (vs : List (List ℚ)) (k : ℕ)
    (hdim : ∀ r ∈ vs, r.length = t.length) (hk : k ≤ vs.length) :
    ∃ idxs : List ℕ, idxs.Nodup ∧ idxs.length = k ∧ (∀ i ∈ idxs, i < vs.length) ∧
      k_closest_vectors t vs k = idxs.map (fun i => vs.getD i []) ∧
      ∀ i ∈ idxs, ∀ j, j < vs.length → j ∉ idxs →
        Real.sqrt ((sqDist (vs.getD i []) t : ℚ) : ℝ) ≤
          Real.sqrt ((sqDist (vs.getD j []) t : ℚ) : ℝ) := by
  classical
  set ds := vs.map (fun row => sqDist row t) with hds
  have hlen : ds.length = vs.length := by simp [hds]
  refine ⟨(argsort ds).take k, ?_, ?_, ?_, rfl, ?_⟩
  · exact (List.take_sublist k _).nodup (argsort_nodup ds)
  · rw [List.length_take, argsort_length, hlen]
    exact min_eq_left hk
  · intro i hi
    have := List.take_subset k _ hi
    rw [mem_argsort, hlen] at this
    exact this
  · intro i hi j hjlt hjn
    have hilt : i < vs.length := by
      have := List.take_subset k _ hi
      rwa [mem_argsort, hlen] at this
    have hjmem : j ∈ argsort ds := by rw [mem_argsort, hlen]; exact hjlt
    have hjdrop : j ∈ (argsort ds).drop k := by
      rcases (List.mem_append.1 (by rwa [List.take_append_drop] : j ∈ (argsort ds).take k ++ (argsort ds).drop k)) with h | h
      · exact absurd h hjn
      · exact h
    have hs := argsort_sorted ds
    rw [List.Sorted, ← List.take_append_drop k (argsort ds), List.pairwise_append] at hs
    have hkey : keyLe ds i j := hs.2.2 i hi j hjdrop
    rw [sqDist_sqrt_le_iff]
    exact keyLe_sqDist t vs i j hilt hjlt hkey

theorem k_closest_vectors_k_smallest_witness :
    (∀ r ∈ ([[1, 1], [0, 0], [5, 5]] : List (List ℚ)), r.length = ([0, 0] : List ℚ).length) ∧
    2 ≤ ([[1, 1], [0, 0], [5, 5]] : List (List ℚ)).length ∧
    ∃ idxs : List ℕ, idxs.Nodup ∧ idxs.length = 2 ∧
      (∀ i ∈ idxs, i < ([[1, 1], [0, 0], [5, 5]] : List (List ℚ)).length) ∧
      k_closest_vectors [0, 0] [[1, 1], [0, 0], [5, 5]] 2 =
        idxs.map (fun i => ([[1, 1], [0, 0], [5, 5]] : List (List ℚ)).getD i []) ∧
      ∀ i ∈ idxs, ∀ j, j < ([[1, 1], [0, 0], [5, 5]] : List (List ℚ)).length → j ∉ idxs →
        Real.sqrt ((sqDist (([[1, 1], [0, 0], [5, 5]] : List (List ℚ)).getD i []) [0, 0] : ℚ) : ℝ) ≤
          Real.sqrt ((sqDist (([[1, 1], [0, 0], [5, 5]] : List (List ℚ)).getD j []) [0, 0] : ℚ) : ℝ) :=
  ⟨by decide, by decide,
    k_closest_vectors_k_smallest [0, 0] [[1, 1], [0, 0], [5, 5]] 2 (by decide) (by decide)⟩

/-- C5: the returned rows appear in non-decreasing order of Euclidean
distance to the query, and (for 1 ≤ k and a nonempty matrix) the first
returned row is a closest row of the whole matrix. -/
theorem k_closest_vectors_sorted_by_distance (t : List ℚ) (vs : List (List ℚ))
    (k : ℕ) (hdim : ∀ r ∈ vs, r.length = t.length) (hk : 1 ≤ k) (hvs : vs ≠ []) :
    List.Sorted (· ≤ ·)
      ((k_closest_vectors t vs k).map (fun r => Real.sqrt ((sqDist r t : ℚ) : ℝ))) ∧
    ∀ r ∈ vs,
      Real.sqrt ((sqDist ((k_closest_vectors t vs k).headD []) t : ℚ) : ℝ) ≤
        Real.sqrt ((sqDist r t : ℚ) : ℝ) := by
  classical
  set ds := vs.map (fun row => sqDist row t) with hds
  have hlen : ds.length = vs.length := by simp [hds]
  have hout : k_closest_vectors t vs k =
      ((argsort ds).take k).map (fun i => vs.getD i []) := rfl
  constructor
  · rw [hout, List.map_map]
    have hsorted : List.Pairwise (keyLe ds) ((argsort ds).take k) :=
      List.Pairwise.sublist (List.take_sublist k _) (argsort_sorted ds)
    rw [List.Sorted, List.pairwise_map]
    refine hsorted.imp_of_mem ?_
    intro i j hi hj hkey
    have hilt : i < vs.length := by
      have := List.take_subset k _ hi
      rwa [mem_argsort, hlen] at this
    have hjlt : j < vs.length := by
      have := List.take_subset k _ hj
      rwa [mem_argsort, hlen] at this
    simpa [sqDist_sqrt_le_iff] using keyLe_sqDist t vs i j hilt hjlt hkey
  · intro r hr
    have hnlen : 0 < vs.length := List.length_pos.2 hvs
    have hanz : argsort ds ≠ [] := by
      intro h
      rw [← List.length_eq_zero, argsort_length, hlen] at h
      omega
    rcases List.exists_cons_of_ne_nil hanz with ⟨i0, rest, hcons⟩
    have htake : (argsort ds).take k = i0 :: rest.take (k - 1) := by
      rw [hcons]
      rcases Nat.exists_eq_add_of_le hk with ⟨m, hm⟩
      subst hm
      simp only [Nat.add_comm 1 m, List.take_succ_cons, Nat.add_sub_cancel]
    have hhead : (k_closest_vectors t vs k).headD [] = vs.getD i0 [] := by
      rw [hout, htake]
      rfl
    rcases List.mem_iff_getElem.1 hr with ⟨j, hjlt, hjr⟩
    have hjmem : j ∈ argsort ds := by rw [mem_argsort, hlen]; exact hjlt
    have hkey : keyLe ds i0 j := by
      rw [hcons] at hjmem
      rcases List.mem_cons.1 hjmem with h | h
      · subst h; exact le_refl _
      · have hs := argsort_sorted ds
        rw [List.Sorted, hcons, List.pairwise_cons] at hs
        exact hs.1 j h
    have hi0lt : i0 < vs.length := by
      have : i0 ∈ argsort ds := by rw [hcons]; exact List.mem_cons_self _ _
      rwa [mem_argsort, hlen] at this
    have := keyLe_sqDist t vs i0 j hi0lt hjlt hkey
    rw [hhead]
    have hjget : vs.getD j [] = r := by
      rw [List.getD_eq_getElem vs [] hjlt, hjr]
    rw [← hjget]
    rwa [sqDist_sqrt_le_iff]

theorem k_closest_vectors_sorted_by_distance_witness :
    (∀ r ∈ ([[3, 4], [0, 1]] : List (List ℚ)), r.length = ([0, 0] : List ℚ).length) ∧
    1 ≤ 2 ∧ ([[3, 4], [0, 1]] : List (List ℚ)) ≠ [] ∧
    (List.Sorted (· ≤ ·)
      ((k_closest_vectors [0, 0] [[3, 4], [0, 1]] 2).map
        (fun r => Real.sqrt ((sqDist r [0, 0] : ℚ) : ℝ))) ∧
    ∀ r ∈ ([[3, 4], [0, 1]] : List (List ℚ)),
      Real.sqrt ((sqDist ((k_closest_vectors [0, 0] [[3, 4], [0, 1]] 2).headD []) [0, 0] : ℚ) : ℝ) ≤
        Real.sqrt ((sqDist r [0, 0] : ℚ) : ℝ)) :=
  ⟨by decide, by decide, by decide,
    k_closest_vectors_sorted_by_distance [0, 0] [[3, 4], [0, 1]] 2
      (by decide) (by decide) (by decide)⟩

/-- C6: `k_closest_vectors` is total in k — the slice never fails: the result
has min k n rows for every k, and when k ≥ n it is a permutation of the whole
matrix (all n rows, in distance order by C5). -/
theorem k_closest_vectors_total (t : List ℚ) (vs : List (List ℚ)) (k : ℕ) :
    (k_closest_vectors t vs k).length = min k vs.length ∧
    (vs.length ≤ k → (k_closest_vectors t vs k).Perm vs) := by
  classical
  set ds := vs.map (fun row => sqDist row t) with hds
  have hlen : ds.length = vs.length := by simp [hds]
  have hout : k_closest_vectors t vs k =
      ((argsort ds).take k).map (fun i => vs.getD i []) := rfl
  constructor
  · rw [hout, List.length_map, List.length_take, argsort_length, hlen]
  · intro hnk
    have htake : (argsort ds).take k = argsort ds :=
      List.take_of_length_le (by rw [argsort_length, hlen]; exact hnk)
    rw [hout, htake]
    have hperm := (argsort_perm ds).map (fun i => vs.getD i [])
    rw [hlen] at hperm
    rw [map_getD_range vs []] at hperm
    exact hperm

theorem k_closest_vectors_total_witness :
    (k_closest_vectors [0] [[1], [2]] 3).length = min 3 ([[1], [2]] : List (List ℚ)).length ∧
    ([[1], [2]] : List (List ℚ)).length ≤ 3 ∧
    (k_closest_vectors [0] [[1], [2]] 3).Perm [[1], [2]] :=
  ⟨(k_closest_vectors_total [0] [[1], [2]] 3).1, by decide,
    (k_closest_vectors_total [0] [[1], [2]] 3).2 (by decide)⟩

/-- Ordering of (distance, row) pairs by their distance component. -/
def fstLe {α : Type} (p q : ℚ × α) : Prop := p.1 ≤ q.1

instance {α : Type} : DecidableRel (fstLe (α := α)) := fun p q =>
  inferInstanceAs (Decidable (p.1 ≤ q.1))

instance {α : Type} : IsTotal (ℚ × α) fstLe := ⟨fun p q => le_total p.1 q.1⟩

instance {α : Type} : IsTrans (ℚ × α) fstLe := ⟨fun _ _ _ h h2 => le_trans h h2⟩

/-- Textbook linear-scan reference implementation, written from the spec's
words: iterate over the rows one by one, compute each row's distance to the
query, and select the k rows of smallest distance (here: insert each row,
keyed by its distance, into an ordered list, and keep the first k).  The key
is the squared distance, which orders rows identically to the Euclidean
distance (`sqDist_sqrt_le_iff`). -/
def k_closest_linear_scan (target_vec : List ℚ) (vectors : List (List ℚ))
    (k : ℕ) : List (List ℚ) :=
  let scanned := vectors.map (fun row => (sqDist row target_vec, row))
  ((List.insertionSort fstLe scanned).take k).map Prod.snd

theorem argsort_map_getD (ds : List ℚ) :
    (argsort ds).map (fun i => ds.getD i 0) = List.insertionSort (· ≤ ·) ds := by
  have hperm : ((argsort ds).map (fun i => ds.getD i 0)).Perm
      (List.insertionSort (· ≤ ·) ds) := by
    have h1 := (argsort_perm ds).map (fun i => ds.getD i 0)
    rw [map_getD_range ds 0] at h1
    exact h1.trans (List.perm_insertionSort _ _).symm
  have hs1 : List.Sorted (· ≤ ·) ((argsort ds).map (fun i => ds.getD i 0)) := by
    rw [List.Sorted, List.pairwise_map]
    exact (argsort_sorted ds).imp (fun h => h)
  exact List.eq_of_perm_of_sorted hperm hs1 (List.sorted_insertionSort _ _)

theorem scanned_map_fst_sorted (t : List ℚ) (vs : List (List ℚ)) :
    (List.insertionSort fstLe (vs.map (fun row => (sqDist row t, row)))).map Prod.fst
      = List.insertionSort (· ≤ ·) (vs.map (fun row => sqDist row t)) := by
  have hperm : ((List.insertionSort fstLe
      (vs.map (fun row => (sqDist row t, row)))).map Prod.fst).Perm
      (List.insertionSort (· ≤ ·) (vs.map (fun row => sqDist row t))) := by
    have h1 := (List.perm_insertionSort fstLe
      (vs.map (fun row => (sqDist row t, row)))).map Prod.fst
    rw [List.map_map] at h1
    have h2 : (vs.map (Prod.fst ∘ fun row => (sqDist row t, row)))
        = vs.map (fun row => sqDist row t) := rfl
    rw [h2] at h1
    exact h1.trans (List.perm_insertionSort _ _).symm
  have hs1 : List.Sorted (· ≤ ·) ((List.insertionSort fstLe
      (vs.map (fun row => (sqDist row t, row)))).map Prod.fst) := by
    rw [List.Sorted, List.pairwise_map]
    exact (List.sorted_insertionSort fstLe _).imp (fun h => h)
  exact List.eq_of_perm_of_sorted hperm hs1 (List.sorted_insertionSort _ _)

/-- C2: the vectorized `k_closest_vectors` and the linear-scan reference are
extensionally equal: for 0 ≤ k ≤ n both return k rows of the matrix, the
Euclidean-distance lists of the two outputs coincide, and the distances of
the returned rows are exactly the k smallest distances (the first k entries
of the sorted distance list). -/
theorem k_closest_vectors_refines_linear_scan (t : List ℚ) (vs : List (List ℚ))
    (k : ℕ) (hdim : ∀ r ∈ vs, r.length = t.length) (hk : k ≤ vs.length) :
    (k_closest_vectors t vs k).length = k ∧
    (k_closest_linear_scan t vs k).length = k ∧
    (∀ r ∈ k_closest_vectors t vs k, r ∈ vs) ∧
    (∀ r ∈ k_closest_linear_scan t vs k, r ∈ vs) ∧
    (k_closest_vectors t vs k).map (fun r => Real.sqrt ((sqDist r t : ℚ) : ℝ))
      = (k_closest_linear_scan t vs k).map (fun r => Real.sqrt ((sqDist r t : ℚ) : ℝ)) ∧
    (k_closest_vectors t vs k).map (fun r => sqDist r t)
      = (List.insertionSort (· ≤ ·) (vs.map (fun r => sqDist r t))).take k := by
  classical
  set ds := vs.map (fun row => sqDist row t) with hds
  have hlen : ds.length = vs.length := by simp [hds]
  set scanned := vs.map (fun row => (sqDist row t, row)) with hscanned
  set sp := List.insertionSort fstLe scanned with hsp
  have hsplen : sp.length = vs.length := by
    rw [hsp, (List.perm_insertionSort fstLe scanned).length_eq, hscanned,
      List.length_map]
  have hout1 : k_closest_vectors t vs k =
      ((argsort ds).take k).map (fun i => vs.getD i []) := rfl
  have hout2 : k_closest_linear_scan t vs k = (sp.take k).map Prod.snd := rfl
  have hspfst : ∀ p ∈ sp, p.1 = sqDist p.2 t := by
    intro p hp
    have : p ∈ scanned := (List.perm_insertionSort fstLe scanned).mem_iff.1 hp
    rcases List.mem_map.1 this with ⟨row, _, rfl⟩
    rfl
  have key1 : (k_closest_vectors t vs k).map (fun r => sqDist r t)
      = (List.insertionSort (· ≤ ·) ds).take k := by
    rw [hout1, List.map_map]
    have hcongr : ((argsort ds).take k).map ((fun r => sqDist r t) ∘ fun i => vs.getD i [])
        = ((argsort ds).take k).map (fun i => ds.getD i 0) := by
      apply List.map_congr_left
      intro i hi
      have hilt : i < vs.length := by
        have := List.take_subset k _ hi
        rwa [mem_argsort, hlen] at this
      exact (map_getD_of_lt (fun row => sqDist row t) vs i [] 0 hilt).symm
    rw [hcongr, List.map_take, argsort_map_getD]
  have key2 : (k_closest_linear_scan t vs k).map (fun r => sqDist r t)
      = (List.insertionSort (· ≤ ·) ds).take k := by
    rw [hout2, List.map_map]
    have hcongr : (sp.take k).map ((fun r => sqDist r t) ∘ Prod.snd)
        = (sp.take k).map Prod.fst := by
      apply List.map_congr_left
      intro p hp
      exact (hspfst p (List.take_subset k sp hp)).symm
    rw [hcongr, List.map_take, scanned_map_fst_sorted]
  refine ⟨?_, ?_, ?_, ?_, ?_, key1⟩
  · rw [hout1, List.length_map, List.length_take, argsort_length, hlen]
    exact min_eq_left hk
  · rw [hout2, List.length_map, List.length_take, hsplen]
    exact min_eq_left hk
  · intro r hr
    rw [hout1] at hr
    rcases List.mem_map.1 hr with ⟨i, hi, rfl⟩
    have hilt : i < vs.length := by
      have := List.take_subset k _ hi
      rwa [mem_argsort, hlen] at this
    rw [List.getD_eq_getElem vs [] hilt]
    exact List.getElem_mem hilt
  · intro r hr
    rw [hout2] at hr
    rcases List.mem_map.1 hr with ⟨p, hp, rfl⟩
    have : p ∈ scanned :=
      (List.perm_insertionSort fstLe scanned).mem_iff.1 (List.take_subset k sp hp)
    rcases List.mem_map.1 this with ⟨row, hrow, rfl⟩
    exact hrow
  · have : ((k_closest_vectors t vs k).map (fun r => sqDist r t)).map
        (fun q : ℚ => Real.sqrt ((q : ℚ) : ℝ))
        = ((k_closest_linear_scan t vs k).map (fun r => sqDist r t)).map
          (fun q : ℚ => Real.sqrt ((q : ℚ) : ℝ)) := by
      rw [key1, key2]
    rw [List.map_map, List.map_map] at this
    exact this

theorem k_closest_vectors_refines_linear_scan_witness :
    (∀ r ∈ ([[1, 1], [0, 0], [5, 5]] : List (List ℚ)), r.length = ([0, 1] : List ℚ).length) ∧
    2 ≤ ([[1, 1], [0, 0], [5, 5]] : List (List ℚ)).length ∧
    ((k_closest_vectors [0, 1] [[1, 1], [0, 0], [5, 5]] 2).length = 2 ∧
    (k_closest_linear_scan [0, 1] [[1, 1], [0, 0], [5, 5]] 2).length = 2 ∧
    (∀ r ∈ k_closest_vectors [0, 1] [[1, 1], [0, 0], [5, 5]] 2,
      r ∈ ([[1, 1], [0, 0], [5, 5]] : List (List ℚ))) ∧
    (∀ r ∈ k_closest_linear_scan [0, 1] [[1, 1], [0, 0], [5, 5]] 2,
      r ∈ ([[1, 1], [0, 0], [5, 5]] : List (List ℚ))) ∧
    (k_closest_vectors [0, 1] [[1, 1], [0, 0], [5, 5]] 2).map
        (fun r => Real.sqrt ((sqDist r [0, 1] : ℚ) : ℝ))
      = (k_closest_linear_scan [0, 1] [[1, 1], [0, 0], [5, 5]] 2).map
        (fun r => Real.sqrt ((sqDist r [0, 1] : ℚ) : ℝ)) ∧
    (k_closest_vectors [0, 1] [[1, 1], [0, 0], [5, 5]] 2).map (fun r => sqDist r [0, 1])
      = (List.insertionSort (· ≤ ·)
          (([[1, 1], [0, 0], [5, 5]] : List (List ℚ)).map (fun r => sqDist r [0, 1]))).take 2) :=
  ⟨by decide, by decide,
    k_closest_vectors_refines_linear_scan [0, 1] [[1, 1], [0, 0], [5, 5]] 2
      (by decide) (by decide)⟩

/-- NumPy broadcasting of the subtraction `vectors - target_vec`, one row at
a time: a row of shape (d,) and a query of shape (m,) are compatible iff
m = d, m = 1 or d = 1 (the length-1 operand is stretched); otherwise the
subtraction raises "operands could not be broadcast together". -/
def npBroadcastSub (row target : List ℚ) : Except String (List ℚ) :=
  if row.length = target.length then
    Except.ok (List.zipWith (fun a b => a - b) row target)
  else if target.length = 1 then
    Except.ok (row.map (fun a => a - target.headD 0))
  else if row.length = 1 then
    Except.ok (target.map (fun b => row.headD 0 - b))
  else Except.error "operands could not be broadcast together"

/-- Monadic (fail-fast) map in the `Except` monad: the first error aborts
the whole computation, exactly as a raised exception aborts the NumPy
expression. -/
def mapExcept {α β : Type} (f : α → Except String β) : List α → Except String (List β)
  | [] => Except.ok []
  | a :: l =>
    match f a with
    | Except.error e => Except.error e
    | Except.ok b =>
      match mapExcept f l with
      | Except.error e => Except.error e
      | Except.ok bs => Except.ok (b :: bs)

/-- Error-aware embedding of `k_closest_vectors`: the body contains no
validation, no handler and no retry, so whatever the underlying array
arithmetic produces — a value or an error — is passed on unchanged. -/
def k_closest_vectors_checked (t : List ℚ) (vs : List (List ℚ)) (k : ℕ) :
    Except String (List (List ℚ)) :=
  match mapExcept (fun row => npBroadcastSub row t) vs with
  | Except.error e => Except.error e
  | Except.ok diffs =>
      let distances := diffs.map (fun dr => (dr.map (fun x => x ^ 2)).sum)
      Except.ok (((argsort distances).take k).map (fun i => vs.getD i []))

theorem mapExcept_npBroadcastSub (t : List ℚ) (vs : List (List ℚ))
    (hdim : ∀ r ∈ vs, r.length = t.length) :
    mapExcept (fun row => npBroadcastSub row t) vs
      = Except.ok (vs.map (fun row => List.zipWith (fun a b => a - b) row t)) := by
  induction vs with
  | nil => rfl
  | cons r rest ih =>
    have hr : r.length = t.length := hdim r (List.mem_cons_self r rest)
    have hrest := ih (fun x hx => hdim x (List.mem_cons_of_mem r hx))
    have hsub : npBroadcastSub r t
        = Except.ok (List.zipWith (fun a b => a - b) r t) := by
      rw [npBroadcastSub, if_pos hr]
    rw [mapExcept, hsub, hrest]
    rfl

/-- On well-typed input (every row of the query's dimension) the checked
embedding agrees with the pure one: no error path is taken. -/
theorem k_closest_vectors_checked_agrees (t : List ℚ) (vs : List (List ℚ))
    (k : ℕ) (hdim : ∀ r ∈ vs, r.length = t.length) :
    k_closest_vectors_checked t vs k = Except.ok (k_closest_vectors t vs k) := by
  rw [k_closest_vectors_checked, mapExcept_npBroadcastSub t vs hdim]
  have hdist : (vs.map (fun row => List.zipWith (fun a b => a - b) row t)).map
      (fun dr => (dr.map (fun x => x ^ 2)).sum)
      = vs.map (fun row => sqDist row t) := by
    rw [List.map_map]
    rfl
  simp only [hdist]
  rfl

/-- C3 (amended): when the query's length differs from the (uniform) row
length and neither is 1, the broadcast error of the underlying subtraction
propagates unchanged to the caller and no partial result is returned. -/
theorem k_closest_vectors_checked_error_propagation (t : List ℚ)
    (vs : List (List ℚ)) (k : ℕ) (d : ℕ) (hrect : ∀ r ∈ vs, r.length = d)
    (hne : vs ≠ []) (hmis : t.length ≠ d) (ht1 : t.length ≠ 1) (hd1 : d ≠ 1) :
    k_closest_vectors_checked t vs k
      = Except.error "operands could not be broadcast together" := by
  rcases List.exists_cons_of_ne_nil hne with ⟨r, rest, rfl⟩
  have hrd : r.length = d := hrect r (List.mem_cons_self r rest)
  have herr : npBroadcastSub r t
      = Except.error "operands could not be broadcast together" := by
    rw [npBroadcastSub, if_neg (by rw [hrd]; exact fun h => hmis h.symm),
      if_neg ht1, if_neg (by rw [hrd]; exact hd1)]
  rw [k_closest_vectors_checked, mapExcept, herr]

theorem k_closest_vectors_checked_error_propagation_witness :
    (∀ r ∈ ([[1, 2, 3]] : List (List ℚ)), r.length = 3) ∧
    ([[1, 2, 3]] : List (List ℚ)) ≠ [] ∧
    ([1, 2] : List ℚ).length ≠ 3 ∧ ([1, 2] : List ℚ).length ≠ 1 ∧ (3 : ℕ) ≠ 1 ∧
    k_closest_vectors_checked [1, 2] [[1, 2, 3]] 1
      = Except.error "operands could not be broadcast together" :=
  ⟨by decide, by decide, by decide, by decide, by decide,
    k_closest_vectors_checked_error_propagation [1, 2] [[1, 2, 3]] 1 3
      (by decide) (by decide) (by decide) (by decide) (by decide)⟩

/-- C3 as stated is false: the query `[2]` has length 1 ≠ 3, the row length,
yet NumPy broadcasting stretches the length-1 query, the arithmetic raises
no error, and the call returns a result. -/
theorem k_closest_vectors_checked_broadcast_counterexample :
    ([2] : List ℚ).length ≠ (([[0, 0, 3]] : List (List ℚ)).getD 0 []).length ∧
    k_closest_vectors_checked [2] [[0, 0, 3]] 1 = Except.ok [[0, 0, 3]] := by
  constructor
  · decide
  · norm_num [k_closest_vectors_checked, mapExcept, npBroadcastSub, argsort,
      keyLe, List.insertionSort, List.orderedInsert, List.range_succ]

/-- C4 as stated is false: `k_closest_vectors` is an original algorithm of
the repository whose output at this concrete input is fully determined by
its explicit arguments — this equation is a theorem, so any two runs on
these inputs produce this same output. -/
theorem k_closest_vectors_concrete_output :
    k_closest_vectors [0, 0] [[1, 1], [0, 0], [5, 5]] 2 = [[0, 0], [1, 1]] := by
  norm_num [k_closest_vectors, sqDist, argsort, keyLe, List.insertionSort,
    List.orderedInsert, List.range_succ]

/-- C4 (amended): the repository does contain a deterministic original
algorithm: the output of `k_closest_vectors` is fully determined by its
explicit arguments — two runs on equal inputs produce equal outputs. -/
theorem k_closest_vectors_deterministic (t1 t2 : List ℚ)
    (vs1 vs2 : List (List ℚ)) (k1 k2 : ℕ)
    (ht : t1 = t2) (hvs : vs1 = vs2) (hk : k1 = k2) :
    k_closest_vectors t1 vs1 k1 = k_closest_vectors t2 vs2 k2 := by
  rw [ht, hvs, hk]

theorem k_closest_vectors_deterministic_witness :
    ([0] : List ℚ) = [0] ∧ ([[1], [2]] : List (List ℚ)) = [[1], [2]] ∧ (1 : ℕ) = 1 ∧
    k_closest_vectors [0] [[1], [2]] 1 = k_closest_vectors [0] [[1], [2]] 1 :=
  ⟨rfl, rfl, rfl,
    k_closest_vectors_deterministic [0] [0] [[1], [2]] [[1], [2]] 1 1 rfl rfl rfl⟩

/-- A point of the vector database: id, embedding vector and payload, as in
the notebook's `models.Record(id=idx, vector=vector, payload={...})`. -/
structure Record where
  id : ℕ
  vector : List ℚ
  payload : List (String × String)

/-- A collection of the vector database: its fixed vector size and its
uploaded points. -/
structure VectorDB where
  size : ℕ
  points : List Record

/-- Modelled from the spec: the vector-database API ("create collection,
upload points with payload, similarity search with a limit") is the external
qdrant client, whose implementation is not part of this repository.
`recreate_collection` makes a fresh empty collection whose vector size is
fixed to the given dimension. -/
def recreate_collection (s : ℕ) : VectorDB :=
  { size := s, points := [] }

/-- Modelled from the spec: "upload points with payload" appends the given
points to the collection. -/
def upload_points (db : VectorDB) (ps : List Record) : VectorDB :=
  { db with points := db.points ++ ps }

/-- Modelled from the spec: "similarity search with a limit" reads the
collection and returns at most `limit` points, closest first; it does not
modify the collection, which is returned unchanged. -/
def db_search (db : VectorDB) (q : List ℚ) (limit : ℕ) :
    List Record × VectorDB :=
  (((List.insertionSort fstLe
      (db.points.map (fun p => (sqDist p.vector q, p)))).take limit).map Prod.snd,
    db)

/-- Every point of the collection carries a vector of exactly the
collection's fixed dimension. -/
def dimInvariant (db : VectorDB) : Prop :=
  ∀ p ∈ db.points, p.vector.length = db.size

/-- The record list of the upload cell: embeddings zipped with the dataset
rows' payloads, ids enumerated from `idx`. -/
def mkRecords (idx : ℕ) :
    List (List ℚ) → List (List (String × String)) → List Record
  | [], _ => []
  | _, [] => []
  | v :: vs, pl :: pls =>
    { id := idx, vector := v, payload := pl } :: mkRecords (idx + 1) vs pls

theorem mkRecords_vector_mem (idx : ℕ) (es : List (List ℚ))
    (pls : List (List (String × String))) (p : Record)
    (hp : p ∈ mkRecords idx es pls) : p.vector ∈ es := by
  induction es generalizing idx pls with
  | nil => cases pls <;> simp [mkRecords] at hp
  | cons v vs ih =>
    cases pls with
    | nil => simp [mkRecords] at hp
    | cons pl pls =>
      rw [mkRecords] at hp
      rcases List.mem_cons.1 hp with h | h
      · subst h
        exact List.mem_cons_self _ _
      · exact List.mem_cons_of_mem _ (ih (idx + 1) pls h)

/-- C7: the `movies` collection is created with its vector size fixed to the
encoder's output dimension; uploading records whose vectors are encoder
embeddings (all of that dimension) preserves the invariant that every stored
vector has exactly the collection's dimension, and search leaves the
collection unchanged. -/
theorem movies_collection_dim_invariant (encDim : ℕ)
    (embeddings : List (List ℚ)) (payloads : List (List (String × String)))
    (henc : ∀ v ∈ embeddings, v.length = encDim) (q : List ℚ) (limit : ℕ) :
    dimInvariant (recreate_collection encDim) ∧
    (∀ db : VectorDB, dimInvariant db → db.size = encDim →
      dimInvariant (upload_points db (mkRecords 0 embeddings payloads))) ∧
    (∀ db : VectorDB, (db_search db q limit).2 = db) := by
  refine ⟨?_, ?_, ?_⟩
  · intro p hp
    simp [recreate_collection] at hp
  · intro db hinv hsize p hp
    rcases List.mem_append.1 hp with h | h
    · exact hinv p h
    · have hv := mkRecords_vector_mem 0 embeddings payloads p h
      rw [upload_points] at *
      rw [henc p.vector hv, hsize]
  · intro db
    rfl

theorem movies_collection_dim_invariant_witness :
    (∀ v ∈ ([[1, 2]] : List (List ℚ)), v.length = 2) ∧
    (dimInvariant (recreate_collection 2) ∧
    (∀ db : VectorDB, dimInvariant db → db.size = 2 →
      dimInvariant (upload_points db (mkRecords 0 [[1, 2]] [[("title", "A")]]))) ∧
    (∀ db : VectorDB, (db_search db [0, 0] 1).2 = db)) :=
  ⟨by decide,
    movies_collection_dim_invariant 2 [[1, 2]] [[("title", "A")]] (by decide) [0, 0] 1⟩

/-- The external services the RAG chatbot calls: the sentence encoder, the
vector database's similarity search, and the hosted language model. -/
structure RagEnv where
  encode : String → List ℚ
  vdb_search : List ℚ → ℕ → List String
  complete : String → String

/-- One external call of the RAG pipeline, with its argument. -/
inductive RagEvent
  | encodeCall : String → RagEvent
  | searchCall : List ℚ → ℕ → RagEvent
  | completeCall : String → RagEvent

/-- Modelled from the spec: `get_records` ("on query, embed the query, call
the database's similarity search") — the notebook cell is a fill-in
exercise, its body a `...` placeholder.  The second component is the trace
of external calls, in order. -/
def get_records (env : RagEnv) (query : String) (max_results : ℕ) :
    List String × List RagEvent :=
  let query_vector := env.encode query
  let hits := env.vdb_search query_vector max_results
  (hits, [RagEvent.encodeCall query, RagEvent.searchCall query_vector max_results])

/-- Modelled from the spec: "format results into a text prompt" — the
retrieved records are rendered with the context template. -/
def format_context (docs : List String) : String :=
  String.intercalate "\n" docs

/-- Modelled from the spec: the prompt template combines the system string,
the formatted context and the question. -/
def build_prompt (system context question : String) : String :=
  system ++ "\n" ++ context ++ "\n" ++ question

/-- Modelled from the spec: `ask` ("embed the query, call the database's
similarity search, format results into a text prompt, call a hosted language
model, return its completion") — the notebook cell is a fill-in exercise,
its body a `...` placeholder.  It calls `get_records`, formats the records,
queries the model, and also returns the trace of its external calls. -/
def ask (env : RagEnv) (system question : String) (max_results : ℕ) :
    String × List RagEvent :=
  let res := get_records env question max_results
  let prompt := build_prompt system (format_context res.1) question
  let answer := env.complete prompt
  (answer, res.2 ++ [RagEvent.completeCall prompt])

/-- C8: for every query, `ask` performs exactly these external calls, in this
order — encode the query, similarity-search with the encoded vector, call
the language model on the prompt built from the formatted retrieved results —
and returns the language model's completion. -/
theorem ask_call_order (env : RagEnv) (system question : String)
    (max_results : ℕ) :
    (ask env system question max_results).2
      = [RagEvent.encodeCall question,
         RagEvent.searchCall (env.encode question) max_results,
         RagEvent.completeCall (build_prompt system
           (format_context (env.vdb_search (env.encode question) max_results))
           question)] ∧
    (ask env system question max_results).1
      = env.complete (build_prompt system
          (format_context (env.vdb_search (env.encode question) max_results))
          question) :=
  ⟨rfl, rfl⟩

/-- A NumPy array value: a 1-D float array, a 2-D float array, or a 1-D
index array (the result of argsort). -/
inductive NpVal
  | vecQ : List ℚ → NpVal
  | matQ : List (List ℚ) → NpVal
  | vecN : List ℕ → NpVal

/-- The array store: the mutable heap of array objects, addressed by cell
index. -/
structure NpStore where
  cells : List NpVal

/-- Allocate a fresh array: append a new cell, return its address. -/
def alloc (st : NpStore) (v : NpVal) : NpStore × ℕ :=
  ({ cells := st.cells ++ [v] }, st.cells.length)

/-- Read a 1-D float array from the store. -/
def readVec (st : NpStore) (i : ℕ) : List ℚ :=
  match st.cells.getD i (NpVal.vecQ []) with
  | NpVal.vecQ v => v
  | _ => []

/-- Read a 2-D float array from the store. -/
def readMat (st : NpStore) (i : ℕ) : List (List ℚ) :=
  match st.cells.getD i (NpVal.matQ []) with
  | NpVal.matQ m => m
  | _ => []

/-- Store-level embedding of `k_closest_vectors`: each NumPy operation of
the body — the broadcast subtraction `vectors - target_vec`, the elementwise
square, the row sum, `np.argsort`, and the fancy indexing
`vectors[k_closest_indices]` — allocates a fresh array and writes to no
existing cell (the slice `[:k]` is a view and allocates nothing).  Returns
the final store and the address of the result. -/
def k_closest_vectors_heap (st : NpStore) (tid vid k : ℕ) : NpStore × ℕ :=
  let target_vec := readVec st tid
  let vectors := readMat st vid
  let subM := vectors.map (fun row => List.zipWith (fun a b => a - b) row target_vec)
  let st1 := (alloc st (NpVal.matQ subM)).1
  let sqM := subM.map (List.map (fun x => x ^ 2))
  let st2 := (alloc st1 (NpVal.matQ sqM)).1
  let distances := sqM.map List.sum
  let st3 := (alloc st2 (NpVal.vecQ distances)).1
  let k_closest_indices := argsort distances
  let st4 := (alloc st3 (NpVal.vecN k_closest_indices)).1
  let closest_vectors := (k_closest_indices.take k).map (fun i => vectors.getD i [])
  alloc st4 (NpVal.matQ closest_vectors)

/-- C9: `k_closest_vectors` modifies neither of its array arguments and
keeps no state: every pre-existing cell of the store — in particular the
query vector and the matrix — is unchanged after the call, the result lives
in a fresh cell, and its value is exactly the pure function of the argument
values. -/
theorem k_closest_vectors_heap_frame (st : NpStore) (tid vid k : ℕ) :
    (k_closest_vectors_heap st tid vid k).1.cells.length = st.cells.length + 5 ∧
    (∀ i, i < st.cells.length →
      (k_closest_vectors_heap st tid vid k).1.cells[i]? = st.cells[i]?) ∧
    (k_closest_vectors_heap st tid vid k).2 = st.cells.length + 4 ∧
    readMat (k_closest_vectors_heap st tid vid k).1
        (k_closest_vectors_heap st tid vid k).2
      = k_closest_vectors (readVec st tid) (readMat st vid) k := by
  set t := readVec st tid with ht
  set vs := readMat st vid with hvs
  set subM := vs.map (fun row => List.zipWith (fun a b => a - b) row t) with hsubM
  set sqM := subM.map (List.map (fun x => x ^ 2)) with hsqM
  set distances := sqM.map List.sum with hdistances
  set closest := ((argsort distances).take k).map (fun i => vs.getD i []) with hclosest
  have hcells0 : (k_closest_vectors_heap st tid vid k).1.cells
      = ((((st.cells ++ [NpVal.matQ subM]) ++ [NpVal.matQ sqM])
          ++ [NpVal.vecQ distances]) ++ [NpVal.vecN (argsort distances)])
          ++ [NpVal.matQ closest] := rfl
  have hcells : (k_closest_vectors_heap st tid vid k).1.cells
      = st.cells ++ [NpVal.matQ subM, NpVal.matQ sqM, NpVal.vecQ distances,
          NpVal.vecN (argsort distances), NpVal.matQ closest] := by
    rw [hcells0]
    simp [List.append_assoc]
  have hrid : (k_closest_vectors_heap st tid vid k).2 = st.cells.length + 4 := by
    simp [k_closest_vectors_heap, alloc]
  have hdist_eq : distances = vs.map (fun row => sqDist row t) := by
    rw [hdistances, hsqM, hsubM, List.map_map, List.map_map]
    rfl
  refine ⟨?_, ?_, hrid, ?_⟩
  · rw [hcells]
    simp
  · intro i hi
    rw [hcells, List.getElem?_append, if_pos hi]
  · rw [readMat, hcells, hrid, List.getD_eq_getElem?_getD,
      List.getElem?_append_right (by omega)]
    have : st.cells.length + 4 - st.cells.length = 4 := by omega
    rw [this]
    simp only [List.getElem?_cons_succ, List.getElem?_cons_zero]
    show closest = k_closest_vectors t vs k
    rw [hclosest, k_closest_vectors, ← hdist_eq]

def heapDemoStore : NpStore :=
  { cells := [NpVal.vecQ [0], NpVal.matQ [[1], [2]]] }

theorem k_closest_vectors_heap_frame_witness :
    (0 : ℕ) < heapDemoStore.cells.length ∧
    (k_closest_vectors_heap heapDemoStore 0 1 1).1.cells.length
      = heapDemoStore.cells.length + 5 ∧
    (k_closest_vectors_heap heapDemoStore 0 1 1).1.cells[0]?
      = heapDemoStore.cells[0]? ∧
    (k_closest_vectors_heap heapDemoStore 0 1 1).2
      = heapDemoStore.cells.length + 4 ∧
    readMat (k_closest_vectors_heap heapDemoStore 0 1 1).1
        (k_closest_vectors_heap heapDemoStore 0 1 1).2
      = k_closest_vectors (readVec heapDemoStore 0) (readMat heapDemoStore 1) 1 :=
  ⟨by decide,
    (k_closest_vectors_heap_frame heapDemoStore 0 1 1).1,
    (k_closest_vectors_heap_frame heapDemoStore 0 1 1).2.1 0 (by decide),
    (k_closest_vectors_heap_frame heapDemoStore 0 1 1).2.2.1,
    (k_closest_vectors_heap_frame heapDemoStore 0 1 1).2.2.2⟩

end MoviesBuddy
